import Mathlib

/-!
Shallow embedding of the transfer-progress tracking subsystem of
`src/common/src/state/data_transfer.rs` (the Transfer Tracker, its File
Entries, the Transfer State Cell's mode type, and the Size Formatter),
together with theorems settling the specification claims about it.

Modelling conventions:
* `usize`/`u8`/`u32` values are modelled as `Nat`; where the code performs a
  saturating `as u8` / `as i8` cast, the model saturates explicitly.
* The `f64` percent and aggregate chains (`current/total*100 as u8`,
  `(sum/count)*100 as i8`) are modelled bit-faithfully: `roundF64Pos` and
  `mulF64By100` implement correctly rounded binary64 division and
  multiplication (round to nearest, ties to even, 53-bit significand) on
  integers, so double-rounding artifacts such as
  `(29.0 / 100.0) * 100.0 = 28.999999999999996` are reproduced exactly.
  The Size Formatter's scaling loop is modelled by exact rational
  arithmetic; every concrete theorem about it evaluates only inputs where
  the source's `f64` computation is exact or truncates identically.
* `Uuid` is modelled as `Nat`: an opaque identity with decidable equality.
* The localization collaborator (`get_local_text`,
  `get_local_text_with_args`) is external to this subsystem; its result is
  modelled by the `LocalizedText` value recording the key and the arguments
  the code passes, which is exactly the information the code supplies.
-/

/-- `SCALE_DECIMAL`: the fixed 9-entry unit-suffix ladder of the Size
Formatter. -/
def SCALE_DECIMAL : List String :=
  ["B", "kB", "MB", "GB", "TB", "PB", "EB", "ZB", "YB"]

/-- `TransferStates`: the tri-state mode held by a Transfer State Cell
(`Normal` is the `Default`). -/
inductive TransferStates where
  | Normal
  | Cancel
  | Pause
deriving DecidableEq

/-- `TransferStates::swap(&self, cancel: bool)`: the transition function of
the Transfer State Cell. -/
def TransferStates.swap : TransferStates → Bool → TransferStates
  | .Normal, cancel => if cancel then .Cancel else .Pause
  | .Cancel, _ => .Cancel
  | .Pause, cancel => if cancel then .Cancel else .Normal

/-- `TransferProgress`: the Progress Status of one File Entry. -/
inductive TransferProgress where
  | Starting
  | Progress (p : ℕ)
  | Finishing
  | Paused (p : ℕ)
  | Cancelling (p : ℕ)
  | Error (p : ℕ)
deriving DecidableEq

/-- `TransferProgress::get_progress`: the carried percent for the variants
that have one, else 0. -/
def TransferProgress.get_progress : TransferProgress → ℕ
  | .Progress p => p
  | .Paused p => p
  | .Cancelling p => p
  | .Error p => p
  | _ => 0

/-- A description string as produced through the localization collaborator:
either `get_local_text key` or `get_local_text_with_args key args`.  The
code only ever supplies the key and the (ordered) argument pairs, so this
value carries exactly the code's contribution to the final string. -/
inductive LocalizedText where
  | plain (key : String)
  | withArgs (key : String) (args : List (String × String))
deriving DecidableEq

/-- The localization key a description was built from. -/
def LocalizedText.key : LocalizedText → String
  | .plain k => k
  | .withArgs k _ => k

/-- Iteration count of the scaling loop of `get_size_display`
(`while total.abs() >= 1000.0 x total /= 1000.0; scale_idx += 1`), as a
function of the original integer input.  With exact arithmetic the value
after k iterations is `total / 1000 ^ k`, and `total / 1000 ^ k ≥ 1000`
holds exactly when the `Nat`-division iterate is `≥ 1000`, so iterating
with `Nat` division produces the same count.  `fuel` is an upper bound on
the number of iterations (the Rust loop needs none: division shrinks the
value); `scaleIdx` below passes a sufficient bound. -/
def scaleIdxAux : ℕ → ℕ → ℕ
  | 0, _ => 0
  | fuel + 1, m => if 1000 ≤ m then scaleIdxAux fuel (m / 1000) + 1 else 0

/-- The scale index `get_size_display` computes for a given total. -/
def scaleIdx (m : ℕ) : ℕ :=
  scaleIdxAux m m

/-- Round-half-up of a rational to the nearest integer, computed on the
numerator/denominator pair: the floor of `q + 1 / 2` is the floor division
of `2 * num + den` by `2 * den`. -/
def ratRoundUnit (q : ℚ) : ℤ :=
  Int.fdiv (2 * q.num + q.den) (2 * q.den)

/-- Round-half-up of `100 * q` to the nearest integer (the hundredths grid
used for 2-decimal rendering), computed on the numerator/denominator
pair: the floor of `100 * q + 1 / 2` is the floor division of
`200 * num + den` by `2 * den`. -/
def ratRoundCenti (q : ℚ) : ℤ :=
  Int.fdiv (200 * q.num + q.den) (2 * q.den)

/-- Fixed-precision decimal rendering of a rational value with `places`
decimal places, as Rust's fixed-precision float formatting does: round to
the nearest multiple of 10 ^ (-places) and print.  The source only ever
passes `places = 0` (and only for integral values, where rendering is
exact) or `places = 2`; ties at the third decimal never occur at the
inputs evaluated by the theorems below, so the tie-breaking direction of
the rounding is immaterial. -/
def formatFixed (places : ℕ) (q : ℚ) : String :=
  if places = 0 then
    toString (ratRoundUnit q)
  else
    let n : ℤ := ratRoundCenti q
    let frac := (n % 100).natAbs
    toString (n / 100) ++ "." ++
      (if frac < 10 then "0" ++ toString frac else toString frac)

/-- `TransferTracker::get_size_display(size, total)`, the Size Formatter,
with `f64` modelled by exact rationals: the scaled total is the exact
value `total / 1000 ^ scale_idx`, built with `mkRat` (the denominator
`1000 ^ scale_idx` is never zero, so `mkRat` is exactly that quotient),
and the `fract() == 0.0` test of the source is integrality of the scaled
value, i.e. its reduced denominator is 1.  The source indexes
`SCALE_DECIMAL[scale_idx]` unconditionally; the model uses `getD`, and the
in-bounds theorem below shows the index never leaves the ladder for any
64-bit input. -/
def TransferTracker.get_size_display (size total : ℕ) : String × String :=
  let scale_idx := scaleIdx total
  let t : ℚ := mkRat total (1000 ^ scale_idx)
  let scale := SCALE_DECIMAL.getD scale_idx ""
  let places : ℕ := if t.den = 1 then 0 else 2
  let total_size := formatFixed places t ++ " " ++ scale
  let s : ℚ := mkRat size (1000 ^ scale_idx)
  let places2 : ℕ := if s.den = 1 then 0 else 2
  (formatFixed places2 s, total_size)

/-- `TrackerType`: which of the two collections an operation targets. -/
inductive TrackerType where
  | FileUpload
  | FileDownload
deriving DecidableEq

/-- `FileProgression` (the Progression Event union).  Modelled from the
spec: its defining module (`pending_message.rs`) is outside the excerpt;
section 3 of the spec gives the three-case union with optional totals,
matching the patterns destructured by `update_file_upload`. -/
inductive FileProgression where
  | CurrentProgress (name : String) (current : ℕ) (total : Option ℕ)
  | ProgressComplete (name : String) (total : Option ℕ)
  | ProgressFailed (name : String) (last_size : Option ℕ) (error : String)
deriving DecidableEq

/-- `FileProgress`: one File Entry.  `Uuid` is modelled as a `Nat`
identity; the `TransferState` handle (an `Arc<Mutex<TransferStates>>`) is
modelled by the mode value it currently holds — none of the tracker
operations below ever reads or writes it, which is what the frame claims
are about. -/
structure FileProgress where
  id : ℕ
  file : String
  progress : TransferProgress
  size : ℕ
  total_size : ℕ
  description : LocalizedText
  state : TransferStates
deriving DecidableEq

/-- The manual `impl PartialEq for FileProgress`: compares id, file,
progress and description; the byte counters (and the state handle) are not
compared. -/
def FileProgress.eq (a b : FileProgress) : Bool :=
  decide (a.id = b.id) && decide (a.file = b.file) &&
    decide (a.progress = b.progress) && decide (a.description = b.description)

/-- `TransferTracker`: the two ordered collections of File Entries. -/
structure TransferTracker where
  file_progress_upload : List FileProgress
  file_progress_download : List FileProgress
deriving DecidableEq

/-- `TransferTracker::get_tracker`: read access to the selected collection. -/
def TransferTracker.get_tracker (t : TransferTracker) :
    TrackerType → List FileProgress
  | .FileUpload => t.file_progress_upload
  | .FileDownload => t.file_progress_download

/-- Functional counterpart of `get_tracker_from`, which hands out the
selected collection for in-place mutation: apply `g` to the selected list
and leave the other collection untouched. -/
def TransferTracker.modifyTracker (t : TransferTracker) (tracker : TrackerType)
    (g : List FileProgress → List FileProgress) : TransferTracker :=
  match tracker with
  | .FileUpload => { t with file_progress_upload := g t.file_progress_upload }
  | .FileDownload => { t with file_progress_download := g t.file_progress_download }

/-- Mutation of the first entry matching `file_id`, as
`iter_mut().find(|p| file_id.eq(&p.id))` followed by a mutation of the
found entry does; a list without a match is returned unchanged. -/
def updateFirst (file_id : ℕ) (g : FileProgress → FileProgress) :
    List FileProgress → List FileProgress
  | [] => []
  | f :: rest =>
      if file_id = f.id then g f :: rest else f :: updateFirst file_id g rest

/-- The entry `iter().find(|p| file_id.eq(&p.id))` locates. -/
def findFile (l : List FileProgress) (file_id : ℕ) : Option FileProgress :=
  l.find? fun p => decide (file_id = p.id)

/-- `TransferTracker::start_file_transfer`: push a fresh Starting entry
onto the selected collection. -/
def TransferTracker.start_file_transfer (t : TransferTracker) (id : ℕ)
    (file : String) (state : TransferStates) (tracker : TrackerType) :
    TransferTracker :=
  t.modifyTracker tracker fun l =>
    l ++ [{ id := id, file := file, progress := .Starting, size := 0,
            total_size := 0, description := .plain "files.transfer-start",
            state := state }]

/-- Floor of the base-2 logarithm, `fuel`-bounded to be structural
(`fuel = n` suffices: the iteration count is at most `log2 n ≤ n`). -/
def log2Aux : ℕ → ℕ → ℕ
  | 0, _ => 0
  | fuel + 1, n => if 2 ≤ n then log2Aux fuel (n / 2) + 1 else 0

/-- Floor of the base-2 logarithm of a positive natural (0 for 0). -/
def natLog2 (n : ℕ) : ℕ :=
  log2Aux n n

/-- Integer division of n by positive d, rounded to nearest with ties to
even — the rounding step of IEEE-754 binary64 arithmetic expressed on the
scaled integer grid. -/
def rndNat (n d : ℕ) : ℕ :=
  if 2 * (n % d) < d then n / d
  else if d < 2 * (n % d) then n / d + 1
  else if n / d % 2 = 0 then n / d else n / d + 1

/-- Truncation toward zero of the dyadic value M * 2 ^ E (the nonnegative
half of an `as u8` / `as i8` float-to-int cast, before saturation). -/
def dyadicTrunc : ℕ × ℤ → ℕ
  | (M, E) => if 0 ≤ E then M * 2 ^ E.toNat else M / 2 ^ (-E).toNat

/-- The 53-bit significand of n / d on the grid with unit in the last
place 2 ^ (L - (52 + k)), rounded to nearest, ties to even. -/
def sigRnd (n d k L : ℕ) : ℕ :=
  if L ≤ 52 + k then rndNat (n * 2 ^ (52 + k - L)) d
  else rndNat n (d * 2 ^ (L - (52 + k)))

/-- `current as f64 / total as f64` for positive naturals, i.e. the
positive rational n / d correctly rounded to the nearest IEEE-754 binary64
value (round to nearest, ties to even), returned as a dyadic pair (M, E)
with value M * 2 ^ E.  `k = natLog2 d + 1` makes `n * 2 ^ k / d ≥ 1`, so
`L = natLog2 (n * 2 ^ k / d)` is `k` plus the floor of log2 of n / d, and
the significand is n / d scaled onto the 53-bit grid below 2 ^ (L - k).
Exponent overflow and subnormals are ignored: every quotient of 64-bit
integers lies far inside the normal binary64 range. -/
def roundF64Pos (n d : ℕ) : ℕ × ℤ :=
  let k := natLog2 d + 1
  let L := natLog2 (n * 2 ^ k / d)
  (sigRnd n d k L, (L : ℤ) - (52 + k))

/-- The binary64 product of the binary64 value M * 2 ^ E with the exact
constant 100: the integer 100 * M has at most 60 bits and is rounded back
to the 53-bit grid (round to nearest, ties to even), the exponent moving
up by the shift. -/
def mulF64By100 : ℕ × ℤ → ℕ × ℤ
  | (M, E) =>
    let L := natLog2 (100 * M)
    if L ≤ 52 then (100 * M, E)
    else (rndNat (100 * M) (2 ^ (L - 52)), E + (L - 52))

/-- The common arithmetic of `update_file_upload`'s percent and
`total_progress`'s aggregate: `(n as f64 / d as f64 * 100.)` for a
positive denominator, computed in binary64 and truncated toward zero (the
shared part of the saturating `as u8` / `as i8` casts; each caller applies
its own saturation bound).  `n = 0` divides to exactly 0.0. -/
def f64PercentTrunc (n d : ℕ) : ℕ :=
  if n = 0 then 0
  else dyadicTrunc (mulF64By100 (roundF64Pos n d))

/-- The percent computed by the `CurrentProgress` arm of
`update_file_upload`:
`total.map(|total| current as f64 / total as f64 * 100.).unwrap_or_default() as u8`.
The `as u8` cast of an `f64` saturates: NaN goes to 0, values of 255 or
more go to 255, other (nonnegative) values are truncated toward zero.
With `total = Some 0` the division yields infinity (cast: 255) unless
`current = 0`, where `0.0 / 0.0` is NaN (cast: 0).  For a positive total
the chain is the correctly rounded binary64 division and multiplication
(`f64PercentTrunc`), truncated and saturated at 255 — which can differ
from the exact `floor(current * 100 / total)` by one, e.g.
`(29.0 / 100.0) * 100.0 = 28.999999999999996` truncates to 28. -/
def computePercent (current : ℕ) (total : Option ℕ) : ℕ :=
  match total with
  | none => 0
  | some t =>
      if t = 0 then (if current = 0 then 0 else 255)
      else min 255 (f64PercentTrunc current t)

/-- Stand-in for the external `humansize::format_size(_, DECIMAL)` used by
the `ProgressComplete` arm; only the fact that it is a function of the
byte count matters to the claims. -/
def format_size (n : ℕ) : String :=
  toString n

/-- The mutation `update_file_upload` performs on the found entry (the
body of its `if let Some(f)` block), as a function of the `download` flag
and the event. -/
def applyProgressionEntry (download : Bool) (progression : FileProgression)
    (f : FileProgress) : FileProgress :=
  match progression with
  | .CurrentProgress _ current total =>
      let f1 := { f with size := current, total_size := total.getD f.total_size }
      let progress := computePercent current total
      let sizes := TransferTracker.get_size_display f1.size f1.total_size
      { f1 with
        description := .withArgs
          (if download then "files.transfer-progress-upload"
            else "files.transfer-progress-download")
          [("progress", toString progress), ("size", sizes.1),
            ("total", sizes.2)],
        progress := .Progress progress }
  | .ProgressComplete _ total =>
      let f1 := { f with total_size := total.getD f.total_size }
      { f1 with
        description := .withArgs "files.transfer-finishing"
          [("size", format_size f1.total_size)],
        progress := .Finishing }
  | .ProgressFailed _ last_size error =>
      let f1 := { f with
        description := .withArgs "files.transfer-error" [("error", error)],
        total_size := last_size.getD f.total_size }
      { f1 with progress := .Error f1.progress.get_progress }

/-- `TransferTracker::update_file_upload`: apply a progression event to the
entry with the given id in the selected collection (silent no-op when the
id is absent). -/
def TransferTracker.update_file_upload (t : TransferTracker) (file_id : ℕ)
    (progression : FileProgression) (tracker : TrackerType) : TransferTracker :=
  let download := match tracker with
    | .FileDownload => true
    | .FileUpload => false
  t.modifyTracker tracker
    (updateFirst file_id (applyProgressionEntry download progression))

/-- `TransferTracker::update_file_description`. -/
def TransferTracker.update_file_description (t : TransferTracker) (file_id : ℕ)
    (description : LocalizedText) (tracker : TrackerType) : TransferTracker :=
  t.modifyTracker tracker (updateFirst file_id fun f =>
    { f with description := description })

/-- The mutation `pause_file_upload` performs on the found entry. -/
def pauseEntry (f : FileProgress) : FileProgress :=
  let sizes := TransferTracker.get_size_display f.size f.total_size
  { f with
    description := .withArgs "files.transfer-paused"
      [("progress", toString f.progress.get_progress), ("size", sizes.1),
        ("total", sizes.2)],
    progress := .Paused f.progress.get_progress }

/-- `TransferTracker::pause_file_upload`. -/
def TransferTracker.pause_file_upload (t : TransferTracker) (file_id : ℕ)
    (tracker : TrackerType) : TransferTracker :=
  t.modifyTracker tracker (updateFirst file_id pauseEntry)

/-- The mutation `cancel_file_upload` performs on the found entry. -/
def cancelEntry (f : FileProgress) : FileProgress :=
  { f with
    description := .plain "files.transfer-cancelling",
    progress := .Cancelling f.progress.get_progress }

/-- `TransferTracker::cancel_file_upload`. -/
def TransferTracker.cancel_file_upload (t : TransferTracker) (file_id : ℕ)
    (tracker : TrackerType) : TransferTracker :=
  t.modifyTracker tracker (updateFirst file_id cancelEntry)

/-- The mutation `error_file_upload` performs on the found entry. -/
def errorEntry (f : FileProgress) : FileProgress :=
  { f with
    progress := .Error f.progress.get_progress,
    description := .plain "files.error-to-upload" }

/-- `TransferTracker::error_file_upload`. -/
def TransferTracker.error_file_upload (t : TransferTracker) (file_id : ℕ)
    (tracker : TrackerType) : TransferTracker :=
  t.modifyTracker tracker (updateFirst file_id errorEntry)

/-- `TransferTracker::remove_file_upload`
(`retain(|p| !file_id.eq(&p.id))`). -/
def TransferTracker.remove_file_upload (t : TransferTracker) (file_id : ℕ)
    (tracker : TrackerType) : TransferTracker :=
  t.modifyTracker tracker fun l => l.filter fun p => !decide (file_id = p.id)

/-- The percents `total_progress` averages over in one collection: those
of entries in `Progress` or `Paused` status. -/
def activePercents (l : List FileProgress) : List ℕ :=
  l.filterMap fun f =>
    match f.progress with
    | .Progress p => some p
    | .Paused p => some p
    | _ => none

/-- `TransferTracker::total_progress`.  The source computes
`count = (#active entries) * 100` and `sum` (of their percents) as `f64`
and returns `((sum / count) * 100.) as i8` when `count > 0`, else `-1`.
The division and the multiplication by 100 are binary64 operations
(`f64PercentTrunc`: correctly rounded division, correctly rounded product,
truncation toward zero), and the `as i8` cast saturates above at 127 (the
lower saturation point is unreachable for nonnegative values).  The
integer-to-`f64` casts of `sum` and `count` are exact as long as both stay
below 2 ^ 53, which holds for any tracker of fewer than 2 ^ 45 entries. -/
def TransferTracker.total_progress (t : TransferTracker) : ℤ :=
  let upload := activePercents t.file_progress_upload
  let download := activePercents t.file_progress_download
  let count := (upload.length + download.length) * 100
  let sum := upload.sum + download.sum
  if 0 < count then min 127 ((f64PercentTrunc sum count : ℕ) : ℤ) else -1

/-- The active percents of both collections together (upload first, as
`total_progress` sums them). -/
def activeAll (t : TransferTracker) : List ℕ :=
  activePercents t.file_progress_upload ++ activePercents t.file_progress_download

/-- Folding any toggle sequence from `Cancel` stays at `Cancel`. -/
theorem foldl_swap_cancel (toggles : List Bool) :
    toggles.foldl TransferStates.swap .Cancel = .Cancel := by
  induction toggles with
  | nil => rfl
  | cons b bs ih =>
      have hstep : TransferStates.swap .Cancel b = .Cancel := by cases b <;> rfl
      simpa [List.foldl, hstep] using ih

/-- C5: `TransferStates::swap` realizes exactly the transition table
(Normal ↦ Pause / Cancel, Pause ↦ Normal / Cancel, Cancel ↦ Cancel for both
flag values), and `Cancel` is absorbing: no sequence of toggles starting
from `Cancel` ever reaches `Normal` or `Pause`. -/
theorem swap_transition_table_and_cancel_absorbing :
    (TransferStates.swap .Normal false = .Pause ∧
      TransferStates.swap .Normal true = .Cancel) ∧
    (TransferStates.swap .Pause false = .Normal ∧
      TransferStates.swap .Pause true = .Cancel) ∧
    (TransferStates.swap .Cancel false = .Cancel ∧
      TransferStates.swap .Cancel true = .Cancel) ∧
    (∀ toggles : List Bool,
      toggles.foldl TransferStates.swap .Cancel = .Cancel ∧
      toggles.foldl TransferStates.swap .Cancel ≠ .Normal ∧
      toggles.foldl TransferStates.swap .Cancel ≠ .Pause) := by
  refine ⟨⟨rfl, rfl⟩, ⟨rfl, rfl⟩, ⟨rfl, rfl⟩, fun toggles => ?_⟩
  have h := foldl_swap_cancel toggles
  exact ⟨h, by simp [h], by simp [h]⟩

/-- For every bound k, an input below 1000 ^ (k + 1) yields a scale index
of at most k, for any amount of fuel. -/
theorem scaleIdxAux_le (fuel : ℕ) :
    ∀ k m : ℕ, m < 1000 ^ (k + 1) → scaleIdxAux fuel m ≤ k := by
  induction fuel with
  | zero => intro k m _; simp [scaleIdxAux]
  | succ fuel ih =>
      intro k m hm
      by_cases h : 1000 ≤ m
      · match k with
        | 0 =>
            exfalso
            rw [pow_one] at hm
            omega
        | k + 1 =>
            have hdiv : m / 1000 < 1000 ^ (k + 1) := by
              rw [Nat.div_lt_iff_lt_mul (by norm_num)]
              calc m < 1000 ^ (k + 2) := hm
                _ = 1000 ^ (k + 1) * 1000 := by ring
            simp only [scaleIdxAux, if_pos h]
            exact Nat.succ_le_succ (ih k (m / 1000) hdiv)
      · simp [scaleIdxAux, h]

/-- C2: for every representable total byte count (any value below 2 ^ 64),
the scale index of the Size Formatter stays strictly below the length of
the 9-entry unit ladder (it is in fact at most 6), so the access
`SCALE_DECIMAL[scale_idx]` is never out of bounds. -/
theorem scale_index_in_bounds (n : ℕ) (h : n < 2 ^ 64) :
    scaleIdx n < SCALE_DECIMAL.length := by
  have h7 : n < 1000 ^ (6 + 1) := lt_trans h (by norm_num)
  have hle : scaleIdx n ≤ 6 := scaleIdxAux_le n 6 n h7
  have hlen : SCALE_DECIMAL.length = 9 := rfl
  omega

theorem scale_index_in_bounds_witness :
    10 ^ 18 < 2 ^ 64 ∧ scaleIdx (10 ^ 18) < SCALE_DECIMAL.length :=
  ⟨by norm_num, scale_index_in_bounds (10 ^ 18) (by norm_num)⟩

/-- C6: the Size Formatter scales the current size by the scale index
computed from the total (never recomputed from the current size), so both
texts share one unit; each value prints with 0 decimal places when the
scaled value is integral and 2 otherwise; and the two specified example
pairs format exactly as stated, overshoot shown as-is. -/
theorem get_size_display_shared_unit :
    TransferTracker.get_size_display 500 500 = ("500", "500 B") ∧
    TransferTracker.get_size_display 1500 2000000 = ("0.00", "2 MB") ∧
    ∀ size total : ℕ,
      (TransferTracker.get_size_display size total).1 =
        formatFixed
          (if (mkRat size (1000 ^ scaleIdx total)).den = 1 then 0 else 2)
          (mkRat size (1000 ^ scaleIdx total)) ∧
      (TransferTracker.get_size_display size total).2 =
        formatFixed
          (if (mkRat total (1000 ^ scaleIdx total)).den = 1 then 0 else 2)
          (mkRat total (1000 ^ scaleIdx total)) ++ " " ++
          SCALE_DECIMAL.getD (scaleIdx total) "" := by
  refine ⟨?_, ?_, fun size total => ⟨rfl, rfl⟩⟩
  · decide
  · decide

/-- Applying a modification to the selected collection and reading the same
collection back commute. -/
theorem get_tracker_modifyTracker (t : TransferTracker) (tracker : TrackerType)
    (g : List FileProgress → List FileProgress) :
    (t.modifyTracker tracker g).get_tracker tracker = g (t.get_tracker tracker) := by
  cases tracker <;> rfl

/-- A modification that fixes the selected collection fixes the tracker. -/
theorem modifyTracker_eq_self (t : TransferTracker) (tracker : TrackerType)
    (g : List FileProgress → List FileProgress)
    (hg : g (t.get_tracker tracker) = t.get_tracker tracker) :
    t.modifyTracker tracker g = t := by
  cases tracker <;>
    simp_all [TransferTracker.modifyTracker, TransferTracker.get_tracker]

/-- `updateFirst` leaves a list without a matching entry unchanged. -/
theorem updateFirst_eq_of_find_none (file_id : ℕ)
    (g : FileProgress → FileProgress) :
    ∀ l : List FileProgress,
      findFile l file_id = none → updateFirst file_id g l = l := by
  intro l
  induction l with
  | nil => intro _; rfl
  | cons a rest ih =>
      intro h
      by_cases hid : file_id = a.id
      · exact absurd h (by simp [findFile, List.find?, hid])
      · have h2 : findFile rest file_id = none := by
          simpa [findFile, List.find?, hid] using h
        simp [updateFirst, hid, ih h2]

/-- When an entry matches, `updateFirst` rewrites the list to a `set` at
the position of the first match. -/
theorem updateFirst_eq_set (file_id : ℕ) (g : FileProgress → FileProgress) :
    ∀ (l : List FileProgress) (f : FileProgress),
      findFile l file_id = some f →
      ∃ i, l.get? i = some f ∧ updateFirst file_id g l = l.set i (g f) := by
  intro l
  induction l with
  | nil => intro f h; exact absurd h (by simp [findFile])
  | cons a rest ih =>
      intro f h
      by_cases hid : file_id = a.id
      · have hf : a = f := by simpa [findFile, List.find?, hid] using h
        exact ⟨0, by simp [hf], by simp [updateFirst, hid, hf]⟩
      · obtain ⟨i, hget, hset⟩ :=
          ih f (by simpa [findFile, List.find?, hid] using h)
        exact ⟨i + 1, by simpa using hget, by simp [updateFirst, hid, hset]⟩

/-- When an entry matches and the mutation preserves the identity,
searching the updated list finds the mutated entry. -/
theorem findFile_updateFirst (file_id : ℕ) (g : FileProgress → FileProgress)
    (hg : ∀ f, (g f).id = f.id) :
    ∀ (l : List FileProgress) (f : FileProgress),
      findFile l file_id = some f →
      findFile (updateFirst file_id g l) file_id = some (g f) := by
  intro l
  induction l with
  | nil => intro f h; exact absurd h (by simp [findFile])
  | cons a rest ih =>
      intro f h
      by_cases hid : file_id = a.id
      · have hf : a = f := by simpa [findFile, List.find?, hid] using h
        subst hf
        simp [updateFirst, hid, findFile, List.find?, hg a]
      · have h2 : findFile rest file_id = some f := by
          simpa [findFile, List.find?, hid] using h
        simpa [updateFirst, hid, findFile, List.find?] using ih f h2

/-- `log2Aux` characterizes the floor of log2 once the fuel covers the
input. -/
theorem log2Aux_spec (fuel : ℕ) :
    ∀ n : ℕ, n ≤ fuel → 1 ≤ n →
      2 ^ log2Aux fuel n ≤ n ∧ n < 2 ^ (log2Aux fuel n + 1) := by
  induction fuel with
  | zero => intro n hn h1; omega
  | succ fuel ih =>
      intro n hn h1
      by_cases h2 : 2 ≤ n
      · have hrec : n / 2 ≤ fuel := by omega
        have h12 : 1 ≤ n / 2 := by omega
        obtain ⟨ha, hb⟩ := ih (n / 2) hrec h12
        simp only [log2Aux, if_pos h2]
        constructor
        · have hp : 2 ^ (log2Aux fuel (n / 2) + 1) =
              2 ^ log2Aux fuel (n / 2) * 2 := by ring
          omega
        · have hp : 2 ^ (log2Aux fuel (n / 2) + 1 + 1) =
              2 ^ (log2Aux fuel (n / 2) + 1) * 2 := by ring
          omega
      · simp only [log2Aux, if_neg h2]
        omega

/-- `natLog2 n` is the floor of the base-2 logarithm of a positive n. -/
theorem natLog2_spec (n : ℕ) (h1 : 1 ≤ n) :
    2 ^ natLog2 n ≤ n ∧ n < 2 ^ (natLog2 n + 1) :=
  log2Aux_spec n n le_rfl h1

/-- Division bound: a quotient with a bounded dividend is bounded. -/
theorem natDiv_le_bound (n d c : ℕ) (hd : 0 < d) (h : n ≤ d * c) :
    n / d ≤ c := by
  have h1 := Nat.div_le_div_right (c := d) h
  rwa [Nat.mul_div_cancel_left c hd] at h1

/-- Rounding to nearest (ties to even) respects an integer upper bound of
the exact quotient. -/
theorem rndNat_le (n d c : ℕ) (hd : 0 < d) (h : n ≤ d * c) :
    rndNat n d ≤ c := by
  have hq : n / d ≤ c := natDiv_le_bound n d c hd h
  have hsucc : d ≤ 2 * (n % d) → n / d + 1 ≤ c := by
    intro hr
    have hr1 : 1 ≤ n % d := by omega
    have hmod := Nat.div_add_mod n d
    have hlt : d * (n / d) < d * c := by omega
    exact Nat.lt_of_mul_lt_mul_left hlt
  unfold rndNat
  split_ifs with h1 h2 h3
  · exact hq
  · exact hsucc (by omega)
  · exact hq
  · exact hsucc (by omega)

/-- Truncation of a bounded dyadic value is bounded. -/
theorem dyadicTrunc_le (M c w : ℕ) (h : M ≤ c * 2 ^ w) :
    dyadicTrunc (M, -(w : ℤ)) ≤ c := by
  simp only [dyadicTrunc]
  by_cases hw : w = 0
  · subst hw
    rw [if_pos (by simp)]
    simpa using h
  · rw [if_neg (by omega)]
    have hE : (-(-(w : ℤ))).toNat = w := by simp
    rw [hE]
    exact natDiv_le_bound M (2 ^ w) c (pow_pos (by norm_num) w)
      (by rw [mul_comm] at h; exact h)

/-- The binary64 product with 100 of a value at most 1 (a dyadic M * 2^-w
with M ≤ 2^w) truncates to at most 100: the rounded product cannot cross
the representable value 100. -/
theorem mulF64By100_trunc_le (M w : ℕ) (hM : M ≤ 2 ^ w) :
    dyadicTrunc (mulF64By100 (M, -(w : ℤ))) ≤ 100 := by
  simp only [mulF64By100]
  by_cases hL2 : natLog2 (100 * M) ≤ 52
  · rw [if_pos hL2]
    exact dyadicTrunc_le _ 100 w (Nat.mul_le_mul_left 100 hM)
  · rw [if_neg hL2]
    have hM1 : 1 ≤ 100 * M := by
      rcases Nat.eq_zero_or_pos (100 * M) with h0 | h0
      · exfalso
        have hz : natLog2 (100 * M) = 0 := by rw [h0]; rfl
        omega
      · exact h0
    have hlow := (natLog2_spec (100 * M) hM1).1
    have hp : 0 < 2 ^ w := pow_pos (by norm_num) w
    have h128 : 100 * M < 2 ^ (w + 7) := by
      have h1 : 100 * M ≤ 100 * 2 ^ w := Nat.mul_le_mul_left 100 hM
      have h3 : 2 ^ (w + 7) = 128 * 2 ^ w := by rw [pow_add]; ring
      omega
    have hL2w : natLog2 (100 * M) ≤ w + 6 := by
      have hlt : (2 : ℕ) ^ natLog2 (100 * M) < 2 ^ (w + 7) :=
        lt_of_le_of_lt hlow h128
      have := (Nat.pow_lt_pow_iff_right (by norm_num : 1 < 2)).mp hlt
      omega
    have hE2 : -(w : ℤ) + ((natLog2 (100 * M) : ℤ) - 52) =
        -((w - (natLog2 (100 * M) - 52) : ℕ) : ℤ) := by omega
    rw [hE2]
    refine dyadicTrunc_le _ 100 (w - (natLog2 (100 * M) - 52)) ?_
    refine rndNat_le _ _ _ (pow_pos (by norm_num) _) ?_
    have hsplit : (2 : ℕ) ^ (natLog2 (100 * M) - 52) *
        2 ^ (w - (natLog2 (100 * M) - 52)) = 2 ^ w := by
      rw [← pow_add]
      congr 1
      omega
    have hfin : (2 : ℕ) ^ (natLog2 (100 * M) - 52) *
        (100 * 2 ^ (w - (natLog2 (100 * M) - 52))) = 100 * 2 ^ w := by
      rw [mul_left_comm, hsplit]
    calc 100 * M ≤ 100 * 2 ^ w := Nat.mul_le_mul_left 100 hM
      _ = 2 ^ (natLog2 (100 * M) - 52) *
          (100 * 2 ^ (w - (natLog2 (100 * M) - 52))) := hfin.symm

/-- The correctly rounded binary64 quotient of n / d with 1 ≤ n ≤ d stays
at most 1: the significand is bounded by the power of two at the unit in
the last place, with an exponent of at least 52 below zero. -/
theorem roundF64Pos_le_one (n d : ℕ) (hd : 0 < d) (hn : 1 ≤ n) (h : n ≤ d) :
    ∃ w : ℕ, 52 ≤ w ∧ (roundF64Pos n d).2 = -(w : ℤ) ∧
      (roundF64Pos n d).1 ≤ 2 ^ w := by
  set k := natLog2 d + 1 with hk
  set L := natLog2 (n * 2 ^ k / d) with hL
  have hdk : d < 2 ^ k := by
    have h2 := (natLog2_spec d hd).2
    rw [← hk] at h2
    exact h2
  have hm1 : 1 ≤ n * 2 ^ k / d := by
    refine (Nat.one_le_div_iff hd).mpr ?_
    calc d ≤ 2 ^ k := le_of_lt hdk
      _ ≤ n * 2 ^ k := Nat.le_mul_of_pos_left _ hn
  have hmk : n * 2 ^ k / d ≤ 2 ^ k :=
    natDiv_le_bound _ d _ hd (Nat.mul_le_mul_right _ h)
  have hLk : L ≤ k := by
    have h2l := (natLog2_spec _ hm1).1
    rw [← hL] at h2l
    have hpow : (2 : ℕ) ^ L ≤ 2 ^ k := le_trans h2l hmk
    exact (Nat.pow_le_pow_iff_right (by norm_num)).mp hpow
  have hsnd : (roundF64Pos n d).2 = (L : ℤ) - (52 + k) := rfl
  have hfst : (roundF64Pos n d).1 = sigRnd n d k L := rfl
  refine ⟨52 + k - L, by omega, ?_, ?_⟩
  · rw [hsnd]
    omega
  · rw [hfst, sigRnd, if_pos (by omega : L ≤ 52 + k)]
    exact rndNat_le _ d _ hd (Nat.mul_le_mul_right _ h)

/-- The percent chain `(n as f64 / d as f64 * 100.)` truncates to at most
100 whenever n ≤ d: the rounded quotient is at most 1 and the rounded
product at most 100, since both bounds are representable. -/
theorem f64PercentTrunc_le_100 (n d : ℕ) (hd : 0 < d) (h : n ≤ d) :
    f64PercentTrunc n d ≤ 100 := by
  by_cases hn : n = 0
  · simp [f64PercentTrunc, hn]
  · obtain ⟨w, hw52, h2, h1⟩ := roundF64Pos_le_one n d hd (by omega) h
    rw [f64PercentTrunc, if_neg hn]
    have hpair : roundF64Pos n d = ((roundF64Pos n d).1, -(w : ℤ)) := by
      rw [← h2]
    rw [hpair]
    exact mulF64By100_trunc_le _ w h1

/-- C9: the `PartialEq` instance for `FileProgress` holds exactly when the
identity, display name, Progress Status and description agree; the byte
counters are excluded, so two entries differing only in them compare
equal. -/
theorem fileProgress_eq_iff :
    (∀ a b : FileProgress,
      FileProgress.eq a b = true ↔
        (a.id = b.id ∧ a.file = b.file ∧ a.progress = b.progress ∧
          a.description = b.description)) ∧
    (∀ (f : FileProgress) (s ts : ℕ),
      FileProgress.eq f { f with size := s, total_size := ts } = true) := by
  constructor
  · intro a b
    simp [FileProgress.eq, Bool.and_eq_true, decide_eq_true_eq, and_assoc]
  · intro f s ts
    simp [FileProgress.eq]

/-- Characterization of the `CurrentProgress` arm of `update_file_upload`
on a present entry: the entry is found again with updated counters, a
rebuilt description and `Progress` status. -/
theorem update_current_progress_found (t : TransferTracker) (file_id : ℕ)
    (tracker : TrackerType) (name : String) (current : ℕ) (total : Option ℕ)
    (f : FileProgress)
    (h : findFile (t.get_tracker tracker) file_id = some f) :
    findFile ((t.update_file_upload file_id
        (.CurrentProgress name current total) tracker).get_tracker tracker)
        file_id =
      some { f with
        size := current,
        total_size := total.getD f.total_size,
        description := .withArgs
          (match tracker with
            | .FileDownload => "files.transfer-progress-upload"
            | .FileUpload => "files.transfer-progress-download")
          [("progress", toString (computePercent current total)),
            ("size", (TransferTracker.get_size_display current
              (total.getD f.total_size)).1),
            ("total", (TransferTracker.get_size_display current
              (total.getD f.total_size)).2)],
        progress := .Progress (computePercent current total) } := by
  cases tracker with
  | FileUpload =>
      exact findFile_updateFirst file_id
        (applyProgressionEntry false (.CurrentProgress name current total))
        (fun x => rfl) _ f h
  | FileDownload =>
      exact findFile_updateFirst file_id
        (applyProgressionEntry true (.CurrentProgress name current total))
        (fun x => rfl) _ f h

/-- C10: the `CurrentProgress` arm builds the description from the
direction-swapped localization key: an entry of the download collection
gets "files.transfer-progress-upload" and an entry of the upload
collection gets "files.transfer-progress-download". -/
theorem progress_description_key_swapped (t : TransferTracker) (file_id : ℕ)
    (tracker : TrackerType) (name : String) (current : ℕ) (total : Option ℕ)
    (f : FileProgress)
    (h : findFile (t.get_tracker tracker) file_id = some f) :
    ∃ f2, findFile ((t.update_file_upload file_id
        (.CurrentProgress name current total) tracker).get_tracker tracker)
        file_id = some f2 ∧
      f2.description.key =
        (match tracker with
          | .FileDownload => "files.transfer-progress-upload"
          | .FileUpload => "files.transfer-progress-download") :=
  ⟨_, update_current_progress_found t file_id tracker name current total f h,
    by cases tracker <;> rfl⟩

/-- A concrete freshly started upload entry used by concrete instances. -/
def sampleEntry : FileProgress :=
  { id := 1, file := "a.txt", progress := .Starting, size := 0,
    total_size := 0, description := .plain "files.transfer-start",
    state := .Normal }

/-- A tracker holding just `sampleEntry` in the upload collection. -/
def sampleTracker : TransferTracker :=
  { file_progress_upload := [sampleEntry], file_progress_download := [] }

theorem progress_description_key_swapped_witness :
    ∃ f2, findFile ((sampleTracker.update_file_upload 1
        (.CurrentProgress "a.txt" 1 (some 2)) .FileUpload).get_tracker
        .FileUpload) 1 = some f2 ∧
      f2.description.key = "files.transfer-progress-download" :=
  progress_description_key_swapped sampleTracker 1 .FileUpload "a.txt" 1
    (some 2) sampleEntry (by decide)

/-- C1 (amended): on a present entry, a `CurrentProgress` event sets the
status to `Progress (computePercent current total)`, where the percent is
0 when the total is absent and otherwise the truncated saturating u8 cast
of the binary64 value `current / total * 100` (255 for a zero total and
positive current).  The percent stays within 0–100 whenever
`current ≤ total`, but it is only bounded by 255 in general (not by 100 as
claimed), and the double-precision evaluation can fall one below the exact
`floor(current * 100 / total)`. -/
theorem apply_progression_percent (t : TransferTracker) (file_id : ℕ)
    (tracker : TrackerType) (name : String) (current : ℕ) (total : Option ℕ)
    (f : FileProgress)
    (h : findFile (t.get_tracker tracker) file_id = some f) :
    (∃ f2, findFile ((t.update_file_upload file_id
        (.CurrentProgress name current total) tracker).get_tracker tracker)
        file_id = some f2 ∧
      f2.progress = .Progress (computePercent current total)) ∧
    computePercent current total ≤ 255 ∧
    (total = none → computePercent current total = 0) ∧
    (∀ tt, total = some tt → current ≤ tt →
      computePercent current total ≤ 100) := by
  refine ⟨⟨_, update_current_progress_found t file_id tracker name current
    total f h, rfl⟩, ?_, ?_, ?_⟩
  · match total with
    | none => simp [computePercent]
    | some tt =>
        by_cases h0 : tt = 0
        · by_cases hc : current = 0 <;> simp [computePercent, h0, hc]
        · simp only [computePercent, if_neg h0]
          exact min_le_left _ _
  · intro hnone
    subst hnone
    rfl
  · intro tt htt hle
    subst htt
    by_cases h0 : tt = 0
    · subst h0
      have hc : current = 0 := Nat.le_zero.mp hle
      simp [computePercent, hc]
    · have hb := f64PercentTrunc_le_100 current tt (Nat.pos_of_ne_zero h0) hle
      calc computePercent current (some tt)
          = min 255 (f64PercentTrunc current tt) := by
            simp [computePercent, h0]
        _ ≤ f64PercentTrunc current tt := min_le_right _ _
        _ ≤ 100 := hb

/-- C1 counterexample: on a present entry, `current = 2, total = Some 1`
produces `Progress 200` — the percent 200 lies outside the claimed 0–100
range (the division does not clamp overshoot).  Moreover the claimed exact
formula fails on its own: at `current = 29, total = Some 100` the binary64
chain `(29.0 / 100.0) * 100.0 = 28.999999999999996` truncates to 28, while
`floor(current / total * 100)` is 29. -/
theorem apply_progression_percent_counterexample :
    (findFile ((sampleTracker.update_file_upload 1
        (.CurrentProgress "a.txt" 2 (some 1)) .FileUpload).get_tracker
        .FileUpload) 1).map FileProgress.progress =
      some (.Progress 200) ∧
    ¬ (200 : ℕ) ≤ 100 ∧
    computePercent 29 (some 100) = 28 ∧
    29 * 100 / 100 = 29 := by
  exact ⟨by decide, by decide, by decide, by decide⟩

theorem apply_progression_percent_witness :
    computePercent 30 (some 100) ≤ 100 :=
  (apply_progression_percent sampleTracker 1 .FileUpload "a.txt" 30
    (some 100) sampleEntry (by decide)).2.2.2 100 rfl (by decide)

/-- Searching for a removed identity after `retain` fails. -/
theorem findFile_filter_ne (file_id : ℕ) (l : List FileProgress) :
    findFile (l.filter fun p => !decide (file_id = p.id)) file_id = none := by
  rw [findFile, List.find?_eq_none]
  intro p hp
  have := (List.mem_filter.mp hp).2
  simp_all

/-- C7: every targeted mutation addressed to an identity that is absent
from the selected collection leaves the tracker entirely unchanged — no
entry created, none modified, no error — and after `remove` a subsequent
progression event for the removed identity is again a no-op. -/
theorem absent_id_mutations_are_noops (t : TransferTracker) (file_id : ℕ)
    (tracker : TrackerType)
    (h : findFile (t.get_tracker tracker) file_id = none) :
    (∀ progression, t.update_file_upload file_id progression tracker = t) ∧
    (∀ d, t.update_file_description file_id d tracker = t) ∧
    t.pause_file_upload file_id tracker = t ∧
    t.cancel_file_upload file_id tracker = t ∧
    t.error_file_upload file_id tracker = t ∧
    (∀ progression,
      (t.remove_file_upload file_id tracker).update_file_upload file_id
          progression tracker =
        t.remove_file_upload file_id tracker) := by
  have key : ∀ g : FileProgress → FileProgress,
      t.modifyTracker tracker (updateFirst file_id g) = t := fun g =>
    modifyTracker_eq_self t tracker _
      (updateFirst_eq_of_find_none file_id g _ h)
  have hrem : findFile ((t.remove_file_upload file_id tracker).get_tracker
      tracker) file_id = none := by
    rw [TransferTracker.remove_file_upload, get_tracker_modifyTracker]
    exact findFile_filter_ne file_id _
  have key2 : ∀ g : FileProgress → FileProgress,
      (t.remove_file_upload file_id tracker).modifyTracker tracker
        (updateFirst file_id g) = t.remove_file_upload file_id tracker :=
    fun g => modifyTracker_eq_self _ tracker _
      (updateFirst_eq_of_find_none file_id g _ hrem)
  exact ⟨fun progression => key _, fun d => key _, key _, key _, key _,
    fun progression => key2 _⟩

theorem absent_id_mutations_are_noops_witness :
    sampleTracker.pause_file_upload 5 .FileUpload = sampleTracker :=
  (absent_id_mutations_are_noops sampleTracker 5 .FileUpload (by decide)).2.2.1

/-- C8: pausing a present entry replaces exactly that entry by a copy whose
status is `Paused` of the previous percent-or-zero and whose description is
rebuilt from the entry's persisted byte counters under the
"files.transfer-paused" key; the identity, name, byte counters and state
cell of the entry are untouched (the copy is a record update of `f` that
leaves those fields alone), every other entry of the selected collection is
untouched (the list changes by a single `set`), and the other collection is
untouched. -/
theorem pause_sets_paused_status_frame (t : TransferTracker) (file_id : ℕ)
    (tracker : TrackerType) (f : FileProgress)
    (h : findFile (t.get_tracker tracker) file_id = some f) :
    (∃ i, (t.get_tracker tracker).get? i = some f ∧
      (t.pause_file_upload file_id tracker).get_tracker tracker =
        (t.get_tracker tracker).set i
          { f with
            description := .withArgs "files.transfer-paused"
              [("progress", toString f.progress.get_progress),
                ("size", (TransferTracker.get_size_display f.size
                  f.total_size).1),
                ("total", (TransferTracker.get_size_display f.size
                  f.total_size).2)],
            progress := .Paused f.progress.get_progress }) ∧
    (pauseEntry f).id = f.id ∧ (pauseEntry f).file = f.file ∧
    (pauseEntry f).size = f.size ∧ (pauseEntry f).total_size = f.total_size ∧
    (pauseEntry f).state = f.state ∧
    (tracker = .FileUpload →
      (t.pause_file_upload file_id tracker).file_progress_download =
        t.file_progress_download) ∧
    (tracker = .FileDownload →
      (t.pause_file_upload file_id tracker).file_progress_upload =
        t.file_progress_upload) := by
  obtain ⟨i, hget, hset⟩ := updateFirst_eq_set file_id pauseEntry _ f h
  refine ⟨⟨i, hget, ?_⟩, rfl, rfl, rfl, rfl, rfl, ?_, ?_⟩
  · rw [TransferTracker.pause_file_upload, get_tracker_modifyTracker, hset]
    rfl
  · intro htr
    subst htr
    rfl
  · intro htr
    subst htr
    rfl

theorem pause_sets_paused_status_frame_witness :
    ∃ i, (sampleTracker.get_tracker .FileUpload).get? i = some sampleEntry ∧
      (sampleTracker.pause_file_upload 1 .FileUpload).get_tracker .FileUpload =
        (sampleTracker.get_tracker .FileUpload).set i
          { sampleEntry with
            description := .withArgs "files.transfer-paused"
              [("progress", toString sampleEntry.progress.get_progress),
                ("size", (TransferTracker.get_size_display sampleEntry.size
                  sampleEntry.total_size).1),
                ("total", (TransferTracker.get_size_display sampleEntry.size
                  sampleEntry.total_size).2)],
            progress := .Paused sampleEntry.progress.get_progress } :=
  (pause_sets_paused_status_frame sampleTracker 1 .FileUpload sampleEntry
    (by decide)).1

/-- `total_progress` as a function of the combined active-percent list:
the sentinel `-1` when it is empty, otherwise the binary64 percent chain
on (sum, count), truncated and saturated at 127. -/
theorem total_progress_eq (t : TransferTracker) :
    t.total_progress =
      if activeAll t = [] then -1
      else min 127 ((f64PercentTrunc (activeAll t).sum
        ((activeAll t).length * 100) : ℕ) : ℤ) := by
  unfold TransferTracker.total_progress activeAll
  by_cases hnil : activePercents t.file_progress_upload ++
      activePercents t.file_progress_download = []
  · rcases List.append_eq_nil.mp hnil with ⟨h1, h2⟩
    simp [h1, h2]
  · have hlen : 0 < (activePercents t.file_progress_upload).length +
        (activePercents t.file_progress_download).length := by
      have := List.length_pos.mpr hnil
      rwa [List.length_append] at this
    have hpos : 0 < ((activePercents t.file_progress_upload).length +
        (activePercents t.file_progress_download).length) * 100 := by
      omega
    rw [if_pos hpos, if_neg hnil, List.sum_append, List.length_append]

/-- Three active upload entries at percents 2, 2 and 1 (average 5/3). -/
def triTracker : TransferTracker :=
  { file_progress_upload :=
      [{ sampleEntry with id := 1, progress := .Progress 2 },
        { sampleEntry with id := 2, progress := .Progress 2 },
        { sampleEntry with id := 3, progress := .Progress 1 }],
    file_progress_download := [] }

/-- C3 counterexample: with active percents 2, 2 and 1 the code returns
the truncated average 1, but rounding `5 / 3` to the nearest integer
gives 2 — `total_progress` truncates, it does not round. -/
theorem total_progress_truncates_counterexample :
    triTracker.total_progress = 1 ∧ round ((2 + 2 + 1 : ℚ) / 3) = 2 ∧
    (1 : ℤ) ≠ 2 := by
  refine ⟨by decide, ?_, by decide⟩
  have h1 : (2 + 2 + 1 : ℚ) / 3 + 1 / 2 = 13 / 6 := by norm_num
  have h2 : ⌊(13 : ℚ) / 6⌋ = 2 := by
    rw [Int.floor_eq_iff]
    norm_num
  rw [round_eq, h1, h2]

/-- C3 (amended): `total_progress` returns the sentinel `-1` exactly when
no entry of either collection is in `Progress` or `Paused` status, and
otherwise the binary64 value `(sum / count) * 100` truncated toward zero
and saturated at the i8 maximum 127 — a truncated double-precision
average, not the round-to-nearest of the exact average the claim states
(it can even fall one below the exact floor: a single active entry at 29
aggregates to 28).  The three concrete examples hold: empty tracker gives
-1, one entry at 50 gives 50, entries at 40 and 60 give 50. -/
theorem total_progress_sentinel_and_truncated_average (t : TransferTracker) :
    (activeAll t = [] → t.total_progress = -1) ∧
    (activeAll t ≠ [] →
      t.total_progress =
        min 127 ((f64PercentTrunc (activeAll t).sum
          ((activeAll t).length * 100) : ℕ) : ℤ)) ∧
    TransferTracker.total_progress ⟨[], []⟩ = -1 ∧
    TransferTracker.total_progress
      ⟨[{ sampleEntry with progress := .Progress 50 }], []⟩ = 50 ∧
    TransferTracker.total_progress
      ⟨[{ sampleEntry with id := 1, progress := .Progress 40 },
        { sampleEntry with id := 2, progress := .Progress 60 }], []⟩ = 50 ∧
    TransferTracker.total_progress
      ⟨[{ sampleEntry with progress := .Progress 29 }], []⟩ = 28 := by
  refine ⟨?_, ?_, by decide, by decide, by decide, by decide⟩
  · intro hnil
    rw [total_progress_eq, if_pos hnil]
  · intro hnil
    rw [total_progress_eq, if_neg hnil]

theorem total_progress_sentinel_and_truncated_average_witness :
    TransferTracker.total_progress ⟨[], []⟩ = -1 :=
  (total_progress_sentinel_and_truncated_average ⟨[], []⟩).1 (by decide)

/-- C4 counterexample: a percent of 200 is reachable through the public
operations alone (start a transfer, then an overshooting
`CurrentProgress` with current = 2, total = Some 1), and the aggregate
then saturates at the i8 maximum 127 — outside the claimed [-1, 100]. -/
theorem total_progress_range_counterexample :
    ((TransferTracker.mk [] []).start_file_transfer 1 "a.txt" .Normal
        .FileUpload |>.update_file_upload 1
        (.CurrentProgress "a.txt" 2 (some 1)) .FileUpload).total_progress =
      127 ∧
    ¬ ((127 : ℤ) ≤ 100) :=
  ⟨by decide, by decide⟩

/-- C4 (amended): the aggregate always lies in [-1, 127]; it lies within
the claimed [-1, 100] under the additional assumption that every active
percent is at most 100 (percents above 100 are reachable and push the
result up to the saturation point 127). -/
theorem total_progress_range (t : TransferTracker) :
    (-1 ≤ t.total_progress ∧ t.total_progress ≤ 127) ∧
    ((∀ p ∈ activeAll t, p ≤ 100) → t.total_progress ≤ 100) := by
  rw [total_progress_eq]
  by_cases hnil : activeAll t = []
  · rw [if_pos hnil]
    exact ⟨⟨le_refl _, by norm_num⟩, fun _ => by norm_num⟩
  · rw [if_neg hnil]
    refine ⟨⟨?_, min_le_left _ _⟩, ?_⟩
    · have h0 : (0 : ℤ) ≤ min 127 ((f64PercentTrunc (activeAll t).sum
          ((activeAll t).length * 100) : ℕ) : ℤ) :=
        le_min (by norm_num) (Int.ofNat_nonneg _)
      omega
    · intro hall
      have hlen : 0 < (activeAll t).length := List.length_pos.mpr hnil
      have hsum : (activeAll t).sum ≤ (activeAll t).length * 100 := by
        simpa [smul_eq_mul] using List.sum_le_card_nsmul (activeAll t) 100 hall
      have hb : f64PercentTrunc (activeAll t).sum
          ((activeAll t).length * 100) ≤ 100 :=
        f64PercentTrunc_le_100 _ _ (by omega) hsum
      calc min 127 ((f64PercentTrunc (activeAll t).sum
            ((activeAll t).length * 100) : ℕ) : ℤ)
          ≤ ((f64PercentTrunc (activeAll t).sum
            ((activeAll t).length * 100) : ℕ) : ℤ) := min_le_right _ _
        _ ≤ (100 : ℤ) := by exact_mod_cast hb

theorem total_progress_range_witness :
    sampleTracker.total_progress ≤ 100 :=
  (total_progress_range sampleTracker).2 (by decide)
